import Mathlib

/-!
# Verification of the chunk-visualizer text-splitting core

This file gives a shallow embedding of the text-splitting subsystem of the
`chunk-visualizer` repository and proves the specified properties about it.

Strings of the JavaScript source are modelled as `List Char` (a JS string is a
finite sequence of code units; `length`, slicing and concatenation coincide).

The repository's own code under `src/` (the splitter adapters, the
`useTextSplitter` hook, the registry) is embedded directly from the source.
The "chunkdown" recursive chunking algorithm itself lives in the external
`chunkdown` package and is not part of the repository sources; its behaviour
is modelled from the specification (sections 2, 3, 4, 6, 7), as marked on the
individual definitions below.
-/

/-- A JavaScript string, modelled as its sequence of characters. -/
abbrev Str := List Char

/-- Whitespace as recognised by JavaScript `String.prototype.trim`
(the common ASCII whitespace characters). -/
def isJsSpace (c : Char) : Bool :=
  c == ' ' || c == '\t' || c == '\n' || c == '\r' || c == '\x0b' || c == '\x0c'

/-- Models the JS test `!text.trim()`: the text is empty or whitespace-only. -/
def isBlank (t : Str) : Bool :=
  t.all isJsSpace

/-! ## Modelled markdown structural parser

The external collaborator `parse(text) -> sequence of Block Node` (§6). -/

/-- Kind of a parsed block-level markdown node (§3 Block Node). -/
inductive BKind where
  | heading (depth : Nat)
  | paragraph
  | thematicBreak
deriving Repr, DecidableEq

/-- A parsed block node with its source-span text.  Spans tile the document:
each source character belongs to exactly one block (§3 invariant on chunk
coverage demands no gaps between spans). -/
structure Block where
  kind : BKind
  text : Str
deriving Repr, DecidableEq

/-- Split a text into lines, each line keeping its terminating newline, so
that the concatenation of all lines is the original text. -/
def splitLines : Str → List Str
  | [] => []
  | c :: rest =>
    if c = '\n' then [c] :: splitLines rest
    else
      match splitLines rest with
      | [] => [[c]]
      | l :: ls => (c :: l) :: ls

theorem join_splitLines (t : Str) : (splitLines t).flatten = t := by
  induction t with
  | nil => rfl
  | cons c rest ih =>
    simp only [splitLines]
    split
    · simp_all
    · cases h : splitLines rest with
      | nil => simp_all [splitLines]
      | cons l ls => rw [h] at ih; simp_all

/-- Classification of a single source line. -/
inductive LKind where
  | blank
  | heading (depth : Nat)
  | thematic
  | plain
deriving Repr, DecidableEq

/-- Classify one line (the trailing newline is ignored). -/
def classifyLine (l : Str) : LKind :=
  let core := l.takeWhile (fun c => !(c == '\n'))
  if core.all (fun c => c == ' ' || c == '\t' || c == '\r') then .blank
  else
    let k := (core.takeWhile (fun c => c == '#')).length
    if 1 ≤ k ∧ k ≤ 6 ∧ ((core.drop k) = [] ∨ (core.drop k).head? = some ' ') then
      .heading k
    else
      let t := core.filter (fun c => !(c == ' ' || c == '\t' || c == '\r'))
      if 3 ≤ t.length ∧ (t.all (fun c => c == '-') || t.all (fun c => c == '*')) then
        .thematic
      else .plain

/-- Close the paragraph being accumulated, if non-empty. -/
def closePara (acc : List Block) (para : Str) : List Block :=
  if para = [] then acc else acc ++ [⟨.paragraph, para⟩]

/-- One step of block building: fold state is the blocks built so far and
the text of the paragraph currently being accumulated. -/
def buildStep (st : List Block × Str) (l : Str) : List Block × Str :=
  match classifyLine l with
  | .blank => (closePara st.1 (st.2 ++ l), [])
  | .plain => (st.1, st.2 ++ l)
  | .heading d => (closePara st.1 st.2 ++ [⟨.heading d, l⟩], [])
  | .thematic => (closePara st.1 st.2 ++ [⟨.thematicBreak, l⟩], [])

/-- Modelled from the spec: the markdown-to-block-tree structural parser (§2,
§6), an external collaborator of the repository that is not part of its
sources.  It produces the flat block list (headings, thematic breaks,
paragraphs) whose source spans tile the document, per the §3 span invariants
and the §8 coverage property (no gaps between consecutive spans). -/
def parseBlocks (t : Str) : List Block :=
  let st := (splitLines t).foldl buildStep ([], [])
  closePara st.1 st.2

/-- Concatenated source text of a block list. -/
def blocksText (bs : List Block) : Str :=
  (bs.map Block.text).flatten

theorem blocksText_append (bs cs : List Block) :
    blocksText (bs ++ cs) = blocksText bs ++ blocksText cs := by
  simp [blocksText]

theorem blocksText_singleton (b : Block) : blocksText [b] = b.text := by
  simp [blocksText]

theorem blocksText_closePara (acc : List Block) (para : Str) :
    blocksText (closePara acc para) = blocksText acc ++ para := by
  unfold closePara
  split
  · simp_all [blocksText]
  · simp [blocksText]

theorem blocksText_buildStep (st : List Block × Str) (l : Str) :
    blocksText (buildStep st l).1 ++ (buildStep st l).2
      = (blocksText st.1 ++ st.2) ++ l := by
  unfold buildStep
  split <;> simp [blocksText_closePara, blocksText_append, blocksText_singleton]

theorem blocksText_foldl (ls : List Str) (st : List Block × Str) :
    blocksText (ls.foldl buildStep st).1 ++ (ls.foldl buildStep st).2
      = (blocksText st.1 ++ st.2) ++ ls.flatten := by
  induction ls generalizing st with
  | nil => simp
  | cons l ls ih =>
    simp only [List.foldl_cons, List.flatten_cons]
    rw [ih, blocksText_buildStep]
    simp

/-- The modelled parser tiles the document: concatenating the block texts
reproduces the input exactly. -/
theorem blocksText_parseBlocks (t : Str) : blocksText (parseBlocks t) = t := by
  unfold parseBlocks
  rw [blocksText_closePara, blocksText_foldl]
  simp [blocksText, join_splitLines]

/-! ## Modelled hierarchical sectionizer (§4.1) -/

mutual
/-- A node of the working tree the chunker walks: either a raw block or a
synthetic Section grouping a heading with its owned content (§3 Section). -/
inductive STree where
  | leaf (b : Block)
  | sec (depth : Nat) (heading : Option Block) (children : STreeList)
deriving Repr, DecidableEq

/-- An ordered sequence of `STree` children. -/
inductive STreeList where
  | nil
  | cons (t : STree) (ts : STreeList)
deriving Repr, DecidableEq
end

/-- Source text of an optional heading block. -/
def headText : Option Block → Str
  | none => []
  | some b => b.text

mutual
/-- Serialized source text of a tree node (§4.2 rule 1: a node's size is the
character length of its serialized/source-span text). -/
def streeText : STree → Str
  | .leaf b => b.text
  | .sec _ h cs => headText h ++ listText cs

/-- Serialized source text of a child sequence. -/
def listText : STreeList → Str
  | .nil => []
  | .cons t ts => streeText t ++ listText ts
end

/-- Is this block a heading of depth at most `d`? -/
def isHeadingLe (d : Nat) (b : Block) : Bool :=
  match b.kind with
  | .heading k => k ≤ d
  | _ => false

/-- Is this block a thematic break? -/
def isThematic (b : Block) : Bool :=
  match b.kind with
  | .thematicBreak => true
  | _ => false

/-- A block that a Section opened by a heading of depth `d` keeps consuming:
stop at a heading of depth ≤ d or at a thematic break (§4.1). -/
def absorbedBy (d : Nat) (b : Block) : Bool :=
  !(isHeadingLe d b) && !(isThematic b)

/-- Modelled from the spec: the hierarchical sectionizer (§4.1), part of the
external chunkdown algorithm that is not in the repository sources.  A single
left-to-right scan: a heading of depth `d` opens a Section consuming the
following siblings until a heading of depth ≤ d or a thematic break; the
consumed run is sectionized recursively; thematic breaks and non-heading
blocks stay as standalone content of the current level. -/
def sectionizeGo : List Block → STreeList
  | [] => .nil
  | b :: rest =>
    match b.kind with
    | .heading d =>
      .cons (.sec d (some b) (sectionizeGo (rest.takeWhile (absorbedBy d))))
        (sectionizeGo (rest.dropWhile (absorbedBy d)))
    | _ => .cons (.leaf b) (sectionizeGo rest)
termination_by l => l.length
decreasing_by
  · exact Nat.lt_succ_of_le (rest.takeWhile_sublist _).length_le
  · exact Nat.lt_succ_of_le (rest.dropWhile_sublist _).length_le
  · exact Nat.lt_succ_of_le (Nat.le_refl _)

/-- The sectionizer preserves the serialized document text. -/
theorem listText_sectionizeGo (bs : List Block) :
    listText (sectionizeGo bs) = blocksText bs := by
  induction bs using sectionizeGo.induct with
  | case1 => simp [sectionizeGo, listText, blocksText]
  | case2 b rest d hk ih1 ih2 =>
    rw [sectionizeGo]
    rw [hk]
    simp only [listText, streeText, headText, ih1, ih2]
    simp only [blocksText, List.map_cons, List.flatten_cons]
    rw [List.append_assoc]
    congr 1
    rw [← List.flatten_append, ← List.map_append, List.takeWhile_append_dropWhile]
  | case3 b rest hk ih =>
    rw [sectionizeGo]
    cases hb : b.kind with
    | heading d => exact absurd hb (hk d)
    | paragraph => simp [listText, streeText, ih, blocksText]
    | thematicBreak => simp [listText, streeText, ih, blocksText]

/-! ## Modelled recursive chunk splitter (§4.2) -/

/-- Modelled from the spec: forced raw slicing of an oversized leaf (§4.2
rule 3, last resort): raw character-offset slicing at exactly
`chunkSize`-sized windows. -/
def chunkWindows (s : Nat) : Str → List Str
  | [] => []
  | c :: rest => (c :: rest.take (s - 1)) :: chunkWindows s (rest.drop (s - 1))
termination_by t => t.length
decreasing_by
  simp only [List.length_cons, List.length_drop]
  omega

/-- Modelled from the spec: handling of a leaf node whose size exceeds
`chunkSize` (§4.2 rules 3 and 4): within the overflow tolerance it is
accepted whole as its own chunk; beyond `chunkSize * maxOverflowRatio` it is
force-split by raw slicing. -/
def splitLeafText (s : Nat) (r : Rat) (txt : Str) : List Str :=
  if (txt.length : Rat) ≤ (s : Rat) * r then [txt] else chunkWindows s txt

/-- State of greedy sibling packing (§4.2 rule 2): completed chunks in
document order, plus the running chunk buffer. -/
structure PackSt where
  chunks : List Str
  buffer : Str
deriving Repr, DecidableEq

/-- Flush the running buffer as a completed chunk, if non-empty (§4.2
rules 2 and 5). -/
def flushSt (st : PackSt) : PackSt :=
  if st.buffer = [] then st else ⟨st.chunks ++ [st.buffer], []⟩

/-- Modelled from the spec: pack one atomic piece of text (a leaf block, a
heading, or a whole small Section) into the running chunk buffer (§4.2
rules 2 and 3).  An empty piece is skipped (§4.2 edge policy); a piece that
fits is greedily merged, flushing first if it would overflow `chunkSize`; a
piece larger than `chunkSize` is never merged and is handled by
`splitLeafText`. -/
def addText (s : Nat) (r : Rat) (st : PackSt) (txt : Str) : PackSt :=
  if txt.length = 0 then st
  else if txt.length ≤ s then
    if st.buffer = [] then ⟨st.chunks, txt⟩
    else if s < st.buffer.length + txt.length then ⟨st.chunks ++ [st.buffer], txt⟩
    else ⟨st.chunks, st.buffer ++ txt⟩
  else
    ⟨(flushSt st).chunks ++ splitLeafText s r txt, []⟩

mutual
/-- Modelled from the spec: process one child of a Section during greedy
packing (§4.2 rules 2-4).  A child no larger than `chunkSize` is packed as a
unit; a larger child is never merged with siblings: within the overflow
tolerance it becomes its own chunk, an oversized Section is recursed into,
and an oversized leaf is force-split. -/
def packChild (s : Nat) (r : Rat) (st : PackSt) : STree → PackSt
  | .leaf b => addText s r st b.text
  | .sec d h cs =>
    if (streeText (.sec d h cs)).length ≤ s then
      addText s r st (streeText (.sec d h cs))
    else if ((streeText (.sec d h cs)).length : Rat) ≤ (s : Rat) * r then
      ⟨(flushSt st).chunks ++ [streeText (.sec d h cs)], []⟩
    else ⟨(flushSt st).chunks ++ splitSec s r h cs, []⟩

/-- Modelled from the spec: split one Section by greedily packing its heading
followed by its children, flushing the final buffer (§4.2 rules 2 and 5). -/
def splitSec (s : Nat) (r : Rat) (h : Option Block) (cs : STreeList) : List Str :=
  (flushSt (packList s r (addText s r ⟨[], []⟩ (headText h)) cs)).chunks

/-- Fold greedy packing over a child sequence in document order. -/
def packList (s : Nat) (r : Rat) (st : PackSt) : STreeList → PackSt
  | .nil => st
  | .cons t ts => packList s r (packChild s r st t) ts
end

/-- Chunk configuration of the chunkdown core (§3): target `chunkSize` and
the `maxOverflowRatio` multiplier (field `maxOverflow` here). -/
structure ChunkConfig where
  chunkSize : Int
  maxOverflow : Rat
deriving Repr, DecidableEq

/-- Error taxonomy of the splitting operation (§7). -/
inductive SplitError where
  | configError
  | parseFailure (msg : String)
  | unknownAlgorithm (alg : String)
  | splitterNotFound (id : String)
deriving Repr, DecidableEq

/-- Modelled from the spec: the chunkdown core `splitText` (§4.2, §6, §7),
parameterized by the external markdown parser collaborator.  Configuration
errors are surfaced before any parsing occurs; empty or whitespace-only
input produces an empty sequence; a parse failure is propagated as a
distinct error; otherwise the block list is sectionized and the root Section
is split by greedy recursive packing. -/
def splitTextWith (parse : Str → Except String (List Block)) (text : Str)
    (cfg : ChunkConfig) : Except SplitError (List Str) :=
  if cfg.chunkSize ≤ 0 then .error .configError
  else if cfg.maxOverflow < 1 then .error .configError
  else if isBlank text then .ok []
  else
    match parse text with
    | .error msg => .error (.parseFailure msg)
    | .ok blocks =>
      .ok (splitSec cfg.chunkSize.toNat cfg.maxOverflow none (sectionizeGo blocks))

/-- The modelled structural parser wrapped in the collaborator contract
(it is total: markdown parsers are permissive). -/
def mdParse (text : Str) : Except String (List Block) :=
  .ok (parseBlocks text)

/-- Modelled from the spec: `chunkdown({chunkSize, maxOverflowRatio}).splitText`,
the external package entry point the repository's adapters delegate to. -/
def chunkdownCore (text : Str) (cfg : ChunkConfig) : Except SplitError (List Str) :=
  splitTextWith mdParse text cfg

/-! ## Window lemmas -/

theorem chunkWindows_flatten (s : Nat) (txt : Str) :
    (chunkWindows s txt).flatten = txt := by
  induction txt using chunkWindows.induct s with
  | case1 => simp [chunkWindows]
  | case2 c rest ih =>
    rw [chunkWindows]
    simp only [List.flatten_cons, ih]
    simp [List.take_append_drop]

theorem chunkWindows_length_le (s : Nat) (hs : 1 ≤ s) (txt : Str) :
    ∀ w ∈ chunkWindows s txt, w.length ≤ s := by
  induction txt using chunkWindows.induct s with
  | case1 => simp [chunkWindows]
  | case2 c rest ih =>
    rw [chunkWindows]
    intro w hw
    rcases List.mem_cons.mp hw with h | h
    · subst h
      simp only [List.length_cons, List.length_take]
      omega
    · exact ih w h

theorem chunkWindows_ne_nil (s : Nat) (txt : Str) (h : txt ≠ []) :
    chunkWindows s txt ≠ [] := by
  cases txt with
  | nil => exact absurd rfl h
  | cons c rest => rw [chunkWindows]; simp

/-- Nat ceiling division, the number of raw windows. -/
def ceilDiv (a s : Nat) : Nat := (a + s - 1) / s

theorem ceilDiv_succ (n s : Nat) (hs : 1 ≤ s) :
    ceilDiv (n - (s - 1)) s + 1 = ceilDiv (n + 1) s := by
  unfold ceilDiv
  rcases Nat.lt_or_ge n (s - 1) with h | h
  · rw [Nat.sub_eq_zero_of_le (Nat.le_of_lt h)]
    have h1 : (0 : Nat) + s - 1 = s - 1 := by omega
    have h2 : n + 1 + s - 1 = n + s := by omega
    rw [h1, h2, Nat.div_eq_of_lt (by omega), Nat.add_div_right _ (by omega),
      Nat.div_eq_of_lt (by omega)]
  · have h1 : n - (s - 1) + s - 1 = n := by omega
    have h2 : n + 1 + s - 1 = n + s := by omega
    rw [h1, h2, Nat.add_div_right _ (by omega)]

theorem chunkWindows_count (s : Nat) (hs : 1 ≤ s) (txt : Str) :
    (chunkWindows s txt).length = ceilDiv txt.length s := by
  induction txt using chunkWindows.induct s with
  | case1 =>
    simp [chunkWindows, ceilDiv, Nat.div_eq_of_lt (show s - 1 < s by omega)]
  | case2 c rest ih =>
    rw [chunkWindows]
    simp only [List.length_cons, ih, List.length_drop]
    exact ceilDiv_succ rest.length s hs

theorem le_mul_ceilDiv (a s : Nat) (hs : 1 ≤ s) : a ≤ s * ceilDiv a s := by
  unfold ceilDiv
  rcases Nat.eq_zero_or_pos a with ha | ha
  · simp [ha]
  · have hmod := Nat.div_add_mod (a + s - 1) s
    have hm : (a + s - 1) % s < s := Nat.mod_lt _ (by omega)
    omega

theorem ceilDiv_le_of_le_mul (a s k : Nat) (hs : 1 ≤ s) (h : a ≤ s * k) :
    ceilDiv a s ≤ k := by
  unfold ceilDiv
  have hc : s * k = k * s := Nat.mul_comm s k
  have h1 : a + s - 1 ≤ (s - 1) + k * s := by omega
  calc (a + s - 1) / s ≤ ((s - 1) + k * s) / s := Nat.div_le_div_right h1
    _ = (s - 1) / s + k := Nat.add_mul_div_right _ _ (by omega)
    _ = k := by rw [Nat.div_eq_of_lt (by omega)]; omega

theorem ceilDiv_anti (a s1 s2 : Nat) (h2 : 1 ≤ s2) (h12 : s2 ≤ s1) :
    ceilDiv a s1 ≤ ceilDiv a s2 := by
  apply ceilDiv_le_of_le_mul a s1 _ (by omega)
  calc a ≤ s2 * ceilDiv a s2 := le_mul_ceilDiv a s2 h2
    _ ≤ s1 * ceilDiv a s2 := Nat.mul_le_mul_right _ h12

/-! ## Leaf splitting and packing-state lemmas -/

theorem splitLeafText_flatten (s : Nat) (r : Rat) (txt : Str) :
    (splitLeafText s r txt).flatten = txt := by
  unfold splitLeafText
  split
  · simp
  · exact chunkWindows_flatten s txt

theorem splitLeafText_ne_nil (s : Nat) (r : Rat) (txt : Str) (h : txt ≠ []) :
    splitLeafText s r txt ≠ [] := by
  unfold splitLeafText
  split
  · simp
  · exact chunkWindows_ne_nil s txt h

theorem splitLeafText_bound (s : Nat) (hs : 1 ≤ s) (r : Rat) (txt : Str) :
    ∀ c ∈ splitLeafText s r txt,
      c.length ≤ s ∨ (c.length : Rat) ≤ (s : Rat) * r := by
  unfold splitLeafText
  split
  · intro c hc
    rw [List.mem_singleton] at hc
    subst hc
    right
    assumption
  · intro c hc
    left
    exact chunkWindows_length_le s hs txt c hc

theorem splitLeafText_count_anti (s1 s2 : Nat) (r : Rat) (txt : Str)
    (h2 : 1 ≤ s2) (h12 : s2 ≤ s1) (hr : 1 ≤ r) (hbig : s1 < txt.length) :
    (splitLeafText s1 r txt).length ≤ (splitLeafText s2 r txt).length := by
  unfold splitLeafText
  rcases le_or_lt (txt.length : Rat) ((s1 : Rat) * r) with hle | hgt
  · rw [if_pos hle]
    split
    · simp
    · have := chunkWindows_ne_nil s2 txt (by intro h; subst h; simp at hbig)
      simp only [List.length_singleton]
      exact List.length_pos.mpr this
  · have hgt2 : ((s2 : Rat) * r) < (txt.length : Rat) := by
      calc (s2 : Rat) * r ≤ (s1 : Rat) * r := by
            apply mul_le_mul_of_nonneg_right _ (by linarith)
            exact_mod_cast h12
        _ < (txt.length : Rat) := hgt
    rw [if_neg (by push_neg; exact hgt), if_neg (by push_neg; exact hgt2)]
    rw [chunkWindows_count s1 (by omega) txt, chunkWindows_count s2 h2 txt]
    exact ceilDiv_anti txt.length s1 s2 h2 h12

/-- Total content represented by a packing state: completed chunks then the
running buffer. -/
def joinSt (st : PackSt) : Str := st.chunks.flatten ++ st.buffer

/-- Number of chunks the state will have produced once flushed. -/
def chunkCount (st : PackSt) : Nat :=
  st.chunks.length + (if st.buffer = [] then 0 else 1)

theorem flushSt_chunks_flatten (st : PackSt) :
    (flushSt st).chunks.flatten = joinSt st := by
  unfold flushSt joinSt
  split
  · simp_all
  · simp

theorem flushSt_buffer (st : PackSt) : (flushSt st).buffer = [] := by
  unfold flushSt
  split
  · assumption
  · rfl

theorem flushSt_chunks_length (st : PackSt) :
    (flushSt st).chunks.length = chunkCount st := by
  unfold flushSt chunkCount
  split
  · simp_all
  · simp_all

theorem flushSt_mem (st : PackSt) :
    ∀ c ∈ (flushSt st).chunks, c ∈ st.chunks ∨ c = st.buffer := by
  unfold flushSt
  split
  · intro c hc; exact Or.inl hc
  · intro c hc
    rcases List.mem_append.mp hc with h | h
    · exact Or.inl h
    · exact Or.inr (List.mem_singleton.mp h)

theorem addText_nil (s : Nat) (r : Rat) (st : PackSt) :
    addText s r st [] = st := by
  simp [addText]

theorem addText_join (s : Nat) (r : Rat) (st : PackSt) (txt : Str) :
    joinSt (addText s r st txt) = joinSt st ++ txt := by
  unfold addText
  split
  · simp_all [joinSt]
  · split
    · split
      · simp_all [joinSt]
      · split
        · simp [joinSt]
        · simp [joinSt]
    · simp only [joinSt, flushSt_chunks_flatten]
      rw [List.flatten_append, flushSt_chunks_flatten, splitLeafText_flatten]
      simp [joinSt]

/-! ## Coverage: packing loses no content (§8 Coverage) -/

mutual
theorem packChild_join (s : Nat) (r : Rat) (st : PackSt) (t : STree) :
    joinSt (packChild s r st t) = joinSt st ++ streeText t :=
  match t with
  | .leaf b => by
    rw [packChild, streeText, addText_join]
  | .sec d h cs => by
    rw [packChild]
    split
    · rw [addText_join]
    · split
      · simp only [joinSt, List.flatten_append, flushSt_chunks_flatten]
        simp [joinSt]
      · have ihs := splitSec_flatten s r h cs
        simp only [joinSt, List.flatten_append, flushSt_chunks_flatten, ihs]
        simp [joinSt, streeText]
termination_by (sizeOf t, 0)

theorem splitSec_flatten (s : Nat) (r : Rat) (h : Option Block) (cs : STreeList) :
    (splitSec s r h cs).flatten = headText h ++ listText cs := by
  rw [splitSec, flushSt_chunks_flatten, packList_join, addText_join]
  simp [joinSt]
termination_by (sizeOf cs, 1)

theorem packList_join (s : Nat) (r : Rat) (st : PackSt) (ts : STreeList) :
    joinSt (packList s r st ts) = joinSt st ++ listText ts :=
  match ts with
  | .nil => by rw [packList, listText]; simp
  | .cons t ts' => by
    rw [packList, listText, packList_join, packChild_join]
    simp
termination_by (sizeOf ts, 0)
end

/-! ## Size bound (§8 Size bound) -/

/-- The specified bound on a single chunk: within the target size, or within
the overflow tolerance `chunkSize * maxOverflowRatio`. -/
def chunkOk (s : Nat) (r : Rat) (c : Str) : Prop :=
  c.length ≤ s ∨ (c.length : Rat) ≤ (s : Rat) * r

/-- Packing-state invariant: all completed chunks satisfy the bound and the
running buffer never exceeds the target size. -/
def stOk (s : Nat) (r : Rat) (st : PackSt) : Prop :=
  (∀ c ∈ st.chunks, chunkOk s r c) ∧ st.buffer.length ≤ s

theorem stOk_flush_mem (s : Nat) (r : Rat) (st : PackSt) (hst : stOk s r st) :
    ∀ c ∈ (flushSt st).chunks, chunkOk s r c := by
  intro c hc
  rcases flushSt_mem st c hc with h | h
  · exact hst.1 c h
  · subst h
    exact Or.inl hst.2

theorem addText_ok (s : Nat) (r : Rat) (hs : 1 ≤ s) (st : PackSt) (txt : Str)
    (hst : stOk s r st) : stOk s r (addText s r st txt) := by
  unfold addText
  split
  · exact hst
  · split
    · split
      · exact ⟨hst.1, by assumption⟩
      · split
        · refine ⟨?_, by assumption⟩
          intro c hc
          rcases List.mem_append.mp hc with h | h
          · exact hst.1 c h
          · rw [List.mem_singleton] at h
            subst h
            exact Or.inl hst.2
        · refine ⟨hst.1, ?_⟩
          simp only [List.length_append]
          omega
    · refine ⟨?_, by simp⟩
      intro c hc
      rcases List.mem_append.mp hc with h | h
      · exact stOk_flush_mem s r st hst c h
      · exact splitLeafText_bound s hs r txt c h

mutual
theorem packChild_ok (s : Nat) (r : Rat) (hs : 1 ≤ s) (st : PackSt) (t : STree)
    (hst : stOk s r st) : stOk s r (packChild s r st t) :=
  match t with
  | .leaf b => by
    rw [packChild]
    exact addText_ok s r hs st b.text hst
  | .sec d h cs => by
    rw [packChild]
    split
    · exact addText_ok s r hs st _ hst
    · split
      · refine ⟨?_, by simp⟩
        intro c hc
        rcases List.mem_append.mp hc with hm | hm
        · exact stOk_flush_mem s r st hst c hm
        · rw [List.mem_singleton] at hm
          subst hm
          right
          assumption
      · refine ⟨?_, by simp⟩
        intro c hc
        rcases List.mem_append.mp hc with hm | hm
        · exact stOk_flush_mem s r st hst c hm
        · exact splitSec_ok s r hs h cs c hm
termination_by (sizeOf t, 0)

theorem splitSec_ok (s : Nat) (r : Rat) (hs : 1 ≤ s) (h : Option Block)
    (cs : STreeList) : ∀ c ∈ splitSec s r h cs, chunkOk s r c := by
  rw [splitSec]
  apply stOk_flush_mem
  apply packList_ok s r hs _ cs
  apply addText_ok s r hs _ _ ⟨by simp, by simp⟩
termination_by (sizeOf cs, 1)

theorem packList_ok (s : Nat) (r : Rat) (hs : 1 ≤ s) (st : PackSt)
    (ts : STreeList) (hst : stOk s r st) : stOk s r (packList s r st ts) :=
  match ts with
  | .nil => by rw [packList]; exact hst
  | .cons t ts' => by
    rw [packList]
    exact packList_ok s r hs _ ts' (packChild_ok s r hs st t hst)
termination_by (sizeOf ts, 0)
end

/-! ## Chunk-count monotonicity (§8 Monotonic chunk count) -/

theorem chunkCount_flushSt (st : PackSt) : chunkCount (flushSt st) = chunkCount st := by
  unfold chunkCount flushSt
  split
  · rfl
  · simp_all

theorem chunkCount_append_chunks (st : PackSt) (l : List Str) :
    chunkCount ⟨(flushSt st).chunks ++ l, []⟩ = chunkCount st + l.length := by
  unfold chunkCount
  simp [flushSt_chunks_length, chunkCount]

theorem chunkCount_mk (cs : List Str) (b : Str) :
    chunkCount ⟨cs, b⟩ = cs.length + (if b = [] then 0 else 1) := rfl

/-- Exact shape of packing a non-empty piece that fits the target size:
started buffer, flushed buffer, or merged into the buffer. -/
theorem addText_small_shape (s : Nat) (r : Rat) (st : PackSt) (txt : Str)
    (h1 : txt ≠ []) (h2 : txt.length ≤ s) :
    (st.buffer = [] ∧ addText s r st txt = ⟨st.chunks, txt⟩) ∨
    (st.buffer ≠ [] ∧ s < st.buffer.length + txt.length ∧
      addText s r st txt = ⟨st.chunks ++ [st.buffer], txt⟩) ∨
    (st.buffer ≠ [] ∧ st.buffer.length + txt.length ≤ s ∧
      addText s r st txt = ⟨st.chunks, st.buffer ++ txt⟩) := by
  unfold addText
  rw [if_neg (by simpa using h1), if_pos h2]
  by_cases hbe : st.buffer = []
  · left
    exact ⟨hbe, by rw [if_pos hbe]⟩
  · rcases Nat.lt_or_ge s (st.buffer.length + txt.length) with ho | ho
    · right; left
      exact ⟨hbe, ho, by rw [if_neg hbe, if_pos ho]⟩
    · right; right
      exact ⟨hbe, ho, by rw [if_neg hbe, if_neg (by omega)]⟩

theorem addText_buffer_small (s : Nat) (r : Rat) (st : PackSt) (txt : Str)
    (h1 : txt ≠ []) (h2 : txt.length ≤ s) :
    (addText s r st txt).buffer ≠ [] := by
  rcases addText_small_shape s r st txt h1 h2 with ⟨_, he⟩ | ⟨_, _, he⟩ | ⟨hb, _, he⟩
  · rw [he]; exact h1
  · rw [he]; exact h1
  · rw [he]; simpa using fun h _ => hb h

theorem addText_count_big (s : Nat) (r : Rat) (st : PackSt) (txt : Str)
    (h : s < txt.length) :
    chunkCount (addText s r st txt)
      = chunkCount st + (splitLeafText s r txt).length := by
  unfold addText
  rw [if_neg (by omega), if_neg (by omega)]
  exact chunkCount_append_chunks st _

theorem addText_buffer_big (s : Nat) (r : Rat) (st : PackSt) (txt : Str)
    (h : s < txt.length) : (addText s r st txt).buffer = [] := by
  unfold addText
  rw [if_neg (by omega), if_neg (by omega)]

theorem splitSec_length_pos (s : Nat) (r : Rat) (h : Option Block)
    (cs : STreeList) (hne : headText h ++ listText cs ≠ []) :
    1 ≤ (splitSec s r h cs).length := by
  have hf := splitSec_flatten s r h cs
  rcases List.eq_nil_or_concat (splitSec s r h cs) with hn | hx
  · rw [hn] at hf
    exact absurd hf.symm hne
  · obtain ⟨l, a, hla⟩ := hx
    rw [hla]
    simp

/-- Dominance between the packing states of two runs of the algorithm, the
first with the larger target size: the small-target run has produced at
least as many (pending) chunks; the large-target buffer empties only when
the small-target buffer does; and on a tie the large-target buffer holds no
more text than the small-target one. -/
def domSt (st1 st2 : PackSt) : Prop :=
  chunkCount st1 ≤ chunkCount st2 ∧
  (st1.buffer = [] → st2.buffer = []) ∧
  (chunkCount st1 = chunkCount st2 → st2.buffer ≠ [] →
    st1.buffer.length ≤ st2.buffer.length)

theorem count_shape_start (st : PackSt) (txt : Str) (h1 : txt ≠ [])
    (hb : st.buffer = []) : chunkCount ⟨st.chunks, txt⟩ = chunkCount st + 1 := by
  unfold chunkCount
  simp_all

theorem count_shape_flush (st : PackSt) (txt : Str) (h1 : txt ≠ [])
    (hb : st.buffer ≠ []) :
    chunkCount ⟨st.chunks ++ [st.buffer], txt⟩ = chunkCount st + 1 := by
  unfold chunkCount
  simp_all

theorem count_shape_merge (st : PackSt) (txt : Str) (hb : st.buffer ≠ []) :
    chunkCount ⟨st.chunks, st.buffer ++ txt⟩ = chunkCount st := by
  unfold chunkCount
  have : ¬(st.buffer ++ txt = []) := by simp_all
  simp_all

theorem addText_mono (s1 s2 : Nat) (r : Rat) (h2 : 1 ≤ s2) (h12 : s2 ≤ s1)
    (hr : 1 ≤ r) (st1 st2 : PackSt) (txt : Str) (hd : domSt st1 st2) :
    domSt (addText s1 r st1 txt) (addText s2 r st2 txt) := by
  obtain ⟨hc, hb, hl⟩ := hd
  by_cases htne : txt = []
  · subst htne
    rw [addText_nil, addText_nil]
    exact ⟨hc, hb, hl⟩
  · rcases Nat.lt_or_ge s2 txt.length with hw2 | hw2
    · rcases Nat.lt_or_ge s1 txt.length with hw1 | hw1
      · -- oversized for both machines
        refine ⟨?_, ?_, ?_⟩
        · rw [addText_count_big s1 r st1 txt hw1, addText_count_big s2 r st2 txt hw2]
          have := splitLeafText_count_anti s1 s2 r txt h2 h12 hr hw1
          omega
        · intro _
          exact addText_buffer_big s2 r st2 txt hw2
        · intro _ hb2
          exact absurd (addText_buffer_big s2 r st2 txt hw2) hb2
      · -- fits machine 1's target, oversized for machine 2
        have hpos : 1 ≤ (splitLeafText s2 r txt).length :=
          List.length_pos.mpr (splitLeafText_ne_nil s2 r txt htne)
        have hcb2 := addText_count_big s2 r st2 txt hw2
        have hc1 : chunkCount (addText s1 r st1 txt) ≤ chunkCount st1 + 1 := by
          rcases addText_small_shape s1 r st1 txt htne hw1 with
            ⟨hb1, he1⟩ | ⟨hb1, ho1, he1⟩ | ⟨hb1, ho1, he1⟩
          · rw [he1, count_shape_start st1 txt htne hb1]
          · rw [he1, count_shape_flush st1 txt htne hb1]
          · rw [he1, count_shape_merge st1 txt hb1]
            omega
        refine ⟨by omega, ?_, ?_⟩
        · intro _
          exact addText_buffer_big s2 r st2 txt hw2
        · intro _ hb2
          exact absurd (addText_buffer_big s2 r st2 txt hw2) hb2
    · -- fits both targets
      have hw1 : txt.length ≤ s1 := le_trans hw2 h12
      rcases addText_small_shape s1 r st1 txt htne hw1 with
        ⟨hb1, he1⟩ | ⟨hb1, ho1, he1⟩ | ⟨hb1, ho1, he1⟩
      · -- machine 1 starts a fresh buffer: its buffer was empty, so machine 2's is
        have hb2 : st2.buffer = [] := hb hb1
        rcases addText_small_shape s2 r st2 txt htne hw2 with
          ⟨_, he2⟩ | ⟨hb2', _, _⟩ | ⟨hb2', _, _⟩
        · rw [he1, he2]
          refine ⟨?_, ?_, ?_⟩
          · rw [count_shape_start st1 txt htne hb1, count_shape_start st2 txt htne hb2]
            omega
          · intro h
            exact h
          · intro _ _
            exact Nat.le_refl _
        · exact absurd hb2 hb2'
        · exact absurd hb2 hb2'
      · -- machine 1 flushes
        rcases addText_small_shape s2 r st2 txt htne hw2 with
          ⟨hb2, he2⟩ | ⟨hb2, ho2, he2⟩ | ⟨hb2, ho2, he2⟩
        · rw [he1, he2]
          refine ⟨?_, by intro h; exact h, by intro _ _; exact Nat.le_refl _⟩
          rw [count_shape_flush st1 txt htne hb1, count_shape_start st2 txt htne hb2]
          omega
        · rw [he1, he2]
          refine ⟨?_, by intro h; exact h, by intro _ _; exact Nat.le_refl _⟩
          rw [count_shape_flush st1 txt htne hb1, count_shape_flush st2 txt htne hb2]
          omega
        · -- machine 2 still has room: the tie clause rules out a tie
          have hstrict : chunkCount st1 < chunkCount st2 := by
            rcases Nat.lt_or_ge (chunkCount st1) (chunkCount st2) with h | h
            · exact h
            · have heq : chunkCount st1 = chunkCount st2 := by omega
              have := hl heq hb2
              omega
          rw [he1, he2]
          refine ⟨?_, ?_, ?_⟩
          · rw [count_shape_flush st1 txt htne hb1, count_shape_merge st2 txt hb2]
            omega
          · intro h
            exact absurd h htne
          · intro _ _
            simp only [List.length_append]
            omega
      · -- machine 1 merges into its buffer
        rcases addText_small_shape s2 r st2 txt htne hw2 with
          ⟨hb2, he2⟩ | ⟨hb2, ho2, he2⟩ | ⟨hb2, ho2, he2⟩
        · rw [he1, he2]
          refine ⟨?_, ?_, ?_⟩
          · rw [count_shape_merge st1 txt hb1, count_shape_start st2 txt htne hb2]
            omega
          · intro h
            exact absurd (List.append_eq_nil.mp h).2 htne
          · rw [count_shape_merge st1 txt hb1, count_shape_start st2 txt htne hb2]
            intro heq _
            omega
        · rw [he1, he2]
          refine ⟨?_, ?_, ?_⟩
          · rw [count_shape_merge st1 txt hb1, count_shape_flush st2 txt htne hb2]
            omega
          · intro h
            exact absurd (List.append_eq_nil.mp h).2 htne
          · rw [count_shape_merge st1 txt hb1, count_shape_flush st2 txt htne hb2]
            intro heq _
            omega
        · rw [he1, he2]
          refine ⟨?_, ?_, ?_⟩
          · rw [count_shape_merge st1 txt hb1, count_shape_merge st2 txt hb2]
            omega
          · intro h
            exact absurd (List.append_eq_nil.mp h).2 htne
          · rw [count_shape_merge st1 txt hb1, count_shape_merge st2 txt hb2]
            intro heq _
            have := hl heq hb2
            simp only [List.length_append]
            omega

theorem addText_count_small_le (s : Nat) (r : Rat) (st : PackSt) (txt : Str)
    (h1 : txt ≠ []) (h2 : txt.length ≤ s) :
    chunkCount (addText s r st txt) ≤ chunkCount st + 1 := by
  rcases addText_small_shape s r st txt h1 h2 with
    ⟨hb1, he⟩ | ⟨hb1, _, he⟩ | ⟨hb1, _, he⟩
  · rw [he, count_shape_start st txt h1 hb1]
  · rw [he, count_shape_flush st txt h1 hb1]
  · rw [he, count_shape_merge st txt hb1]
    omega

theorem domSt_into_emit (st1' st2 : PackSt) (l : List Str)
    (hc1 : chunkCount st1' ≤ chunkCount st2 + 1) (hl : 1 ≤ l.length) :
    domSt st1' ⟨(flushSt st2).chunks ++ l, []⟩ := by
  refine ⟨?_, fun _ => rfl, ?_⟩
  · rw [chunkCount_append_chunks]
    omega
  · intro _ hb2
    exact absurd rfl hb2

theorem domSt_emit_emit (st1 st2 : PackSt) (l1 l2 : List Str)
    (hc : chunkCount st1 ≤ chunkCount st2) (hll : l1.length ≤ l2.length) :
    domSt ⟨(flushSt st1).chunks ++ l1, []⟩ ⟨(flushSt st2).chunks ++ l2, []⟩ := by
  refine ⟨?_, fun _ => rfl, ?_⟩
  · rw [chunkCount_append_chunks, chunkCount_append_chunks]
    omega
  · intro _ hb2
    exact absurd rfl hb2

mutual
theorem packChild_mono (s1 s2 : Nat) (r : Rat) (h2 : 1 ≤ s2) (h12 : s2 ≤ s1)
    (hr : 1 ≤ r) (st1 st2 : PackSt) (t : STree) (hd : domSt st1 st2) :
    domSt (packChild s1 r st1 t) (packChild s2 r st2 t) :=
  match t with
  | .leaf b => by
    rw [packChild, packChild]
    exact addText_mono s1 s2 r h2 h12 hr st1 st2 b.text hd
  | .sec d h cs => by
    rcases Nat.lt_or_ge s2 (streeText (.sec d h cs)).length with hw2 | hw2
    · have htne : streeText (.sec d h cs) ≠ [] :=
        List.ne_nil_of_length_pos (by omega)
      rcases Nat.lt_or_ge s1 (streeText (.sec d h cs)).length with hw1 | hw1
      · -- oversized for both machines
        rw [packChild, packChild, if_neg (not_le.mpr hw1), if_neg (not_le.mpr hw2)]
        by_cases hr2 : ((streeText (.sec d h cs)).length : Rat) ≤ (s2 : Rat) * r
        · have hr1 : ((streeText (.sec d h cs)).length : Rat) ≤ (s1 : Rat) * r := by
            calc ((streeText (.sec d h cs)).length : Rat) ≤ (s2 : Rat) * r := hr2
              _ ≤ (s1 : Rat) * r := by
                  apply mul_le_mul_of_nonneg_right _ (by linarith)
                  exact_mod_cast h12
          rw [if_pos hr1, if_pos hr2]
          exact domSt_emit_emit st1 st2 _ _ hd.1 (Nat.le_refl _)
        · rw [if_neg hr2]
          have hpos2 : 1 ≤ (splitSec s2 r h cs).length :=
            splitSec_length_pos s2 r h cs (by rw [← streeText]; exact htne)
          by_cases hr1 : ((streeText (.sec d h cs)).length : Rat) ≤ (s1 : Rat) * r
          · rw [if_pos hr1]
            exact domSt_emit_emit st1 st2 _ _ hd.1 (by simpa using hpos2)
          · rw [if_neg hr1]
            exact domSt_emit_emit st1 st2 _ _ hd.1
              (splitSec_count_anti s1 s2 r h2 h12 hr h cs)
      · -- fits machine 1's target only
        rw [packChild, packChild, if_pos hw1, if_neg (not_le.mpr hw2)]
        have hc1 : chunkCount (addText s1 r st1 (streeText (.sec d h cs)))
            ≤ chunkCount st1 + 1 :=
          addText_count_small_le s1 r st1 _ htne hw1
        by_cases hr2 : ((streeText (.sec d h cs)).length : Rat) ≤ (s2 : Rat) * r
        · rw [if_pos hr2]
          exact domSt_into_emit _ st2 _ (by have := hd.1; omega) (by simp)
        · rw [if_neg hr2]
          exact domSt_into_emit _ st2 _ (by have := hd.1; omega)
            (splitSec_length_pos s2 r h cs (by rw [← streeText]; exact htne))
    · -- fits both targets
      rw [packChild, packChild, if_pos (le_trans hw2 h12), if_pos hw2]
      exact addText_mono s1 s2 r h2 h12 hr st1 st2 _ hd
termination_by (sizeOf t, 0)

theorem splitSec_count_anti (s1 s2 : Nat) (r : Rat) (h2 : 1 ≤ s2)
    (h12 : s2 ≤ s1) (hr : 1 ≤ r) (h : Option Block) (cs : STreeList) :
    (splitSec s1 r h cs).length ≤ (splitSec s2 r h cs).length := by
  rw [splitSec, splitSec, flushSt_chunks_length, flushSt_chunks_length]
  have h0 : domSt ⟨[], []⟩ ⟨[], []⟩ :=
    ⟨Nat.le_refl _, fun hx => hx, fun _ hb => absurd rfl hb⟩
  exact (packList_mono s1 s2 r h2 h12 hr _ _ cs
    (addText_mono s1 s2 r h2 h12 hr _ _ (headText h) h0)).1
termination_by (sizeOf cs, 1)

theorem packList_mono (s1 s2 : Nat) (r : Rat) (h2 : 1 ≤ s2) (h12 : s2 ≤ s1)
    (hr : 1 ≤ r) (st1 st2 : PackSt) (ts : STreeList) (hd : domSt st1 st2) :
    domSt (packList s1 r st1 ts) (packList s2 r st2 ts) :=
  match ts with
  | .nil => by rw [packList, packList]; exact hd
  | .cons t ts' => by
    rw [packList, packList]
    exact packList_mono s1 s2 r h2 h12 hr _ _ ts'
      (packChild_mono s1 s2 r h2 h12 hr st1 st2 t hd)
termination_by (sizeOf ts, 0)
end

/-! ## The repository's splitter adapters and hook (embedded from src/) -/

/-- The duck-typed splitter configuration of `src/src/libs/splitters/types.ts`
(`TextSplitterConfig`): every field may be absent (JS `undefined`).
`maxOverflow` models the `maxOverflowRatio` key. -/
structure TextSplitterConfig where
  chunkSize : Option Int
  chunkOverlap : Option Int
  algorithm : Option String
  maxOverflow : Option Rat
deriving Repr, DecidableEq

namespace ChunkdownSplitter

/-- `ChunkdownSplitter.splitText` and `ChunkdownNextSplitter.splitText`
(src/src/libs/splitters/ChunkdownNextSplitter.ts): destructures the config
with defaults `chunkSize = 200`, `maxOverflowRatio = 1.5` (applied only when
the key is absent) and delegates to the external chunkdown package. -/
def splitText (text : Str) (config : TextSplitterConfig) :
    Except SplitError (List Str) :=
  chunkdownCore text
    ⟨config.chunkSize.getD 200, (config.maxOverflow).getD ((3 : Rat) / 2)⟩

end ChunkdownSplitter

/-- The type of a registered splitter's `splitText`: it either returns chunks
or throws. -/
abbrev SplitFn := Str → TextSplitterConfig → Except SplitError (List Str)

/-- `useTextSplitter` (the React hook in the repository sources): the final
`(chunks, error)` state after one completed run of its splitting effect.
Blank input clears the chunks and the error and returns early; a missing
splitter throws; a thrown error is caught, stored, and clears the chunks; a
successful result stores the chunks with no error.  The hook overrides the
config's `algorithm` key with its own argument (`{...config, algorithm}`). -/
def runUseTextSplitter (registry : String → Option SplitFn) (splitterId : String)
    (alg : String) (text : Str) (config : TextSplitterConfig) :
    List Str × Option SplitError :=
  if isBlank text then ([], none)
  else
    match registry splitterId with
    | none => ([], some (.splitterNotFound splitterId))
    | some f =>
      match f text { config with algorithm := some alg } with
      | .ok cs => (cs, none)
      | .error e => ([], some e)

namespace LangchainSplitter

/-- Declared algorithms of `LangchainSplitter`. -/
def algorithms : List String := ["markdown", "character", "sentence"]

/-- `LangchainSplitter.splitText`: destructures the config with defaults
`chunkSize = 200`, `chunkOverlap = 0`, `algorithm = 'markdown'`, dispatches
on the algorithm to one of the three underlying LangChain splitters (the
external library, passed here as functions), and throws `Unknown algorithm`
otherwise. -/
def splitText (mdImpl charImpl recImpl : Int → Int → Str → List Str)
    (text : Str) (config : TextSplitterConfig) : Except SplitError (List Str) :=
  if config.algorithm.getD "markdown" = "markdown" then
    .ok (mdImpl (config.chunkSize.getD 200) (config.chunkOverlap.getD 0) text)
  else if config.algorithm.getD "markdown" = "character" then
    .ok (charImpl (config.chunkSize.getD 200) (config.chunkOverlap.getD 0) text)
  else if config.algorithm.getD "markdown" = "sentence" then
    .ok (recImpl (config.chunkSize.getD 200) (config.chunkOverlap.getD 0) text)
  else .error (.unknownAlgorithm (config.algorithm.getD "markdown"))

end LangchainSplitter

namespace LlamaIndexSplitter

/-- Declared algorithms of `LlamaIndexSplitter`. -/
def algorithms : List String := ["sentence", "markdown"]

/-- `LlamaIndexSplitter.splitText` (src/src/libs/splitters/LlamaindexSplitter.ts
lines 15-39): `chunkSize` is destructured with no default in this version and
forwarded to the sentence splitter; `algorithm` defaults to 'markdown'; an
unrecognised algorithm throws `Unknown algorithm`. -/
def splitText (sentImpl : Option Int → Int → Str → List Str)
    (mdImpl : Str → List Str) (text : Str) (config : TextSplitterConfig) :
    Except SplitError (List Str) :=
  if config.algorithm.getD "markdown" = "sentence" then
    .ok (sentImpl config.chunkSize (config.chunkOverlap.getD 0) text)
  else if config.algorithm.getD "markdown" = "markdown" then .ok (mdImpl text)
  else .error (.unknownAlgorithm (config.algorithm.getD "markdown"))

end LlamaIndexSplitter

/-! ## Dissection of a successful core call -/

theorem chunkdownCore_ok_dissect (text : Str) (cfg : ChunkConfig) (cs : List Str)
    (hok : chunkdownCore text cfg = .ok cs) :
    (0 < cfg.chunkSize ∧ 1 ≤ cfg.maxOverflow) ∧
    ((isBlank text = true ∧ cs = []) ∨
      (isBlank text = false ∧
        cs = splitSec cfg.chunkSize.toNat cfg.maxOverflow none
          (sectionizeGo (parseBlocks text)))) := by
  unfold chunkdownCore splitTextWith at hok
  by_cases h1 : cfg.chunkSize ≤ 0
  · rw [if_pos h1] at hok
    exact absurd hok (by simp)
  · rw [if_neg h1] at hok
    by_cases hr : cfg.maxOverflow < 1
    · rw [if_pos hr] at hok
      exact absurd hok (by simp)
    · rw [if_neg hr] at hok
      refine ⟨⟨by omega, not_lt.mp hr⟩, ?_⟩
      by_cases hb : isBlank text
      · rw [if_pos hb] at hok
        left
        refine ⟨hb, ?_⟩
        have := Except.ok.inj hok
        exact this.symm
      · rw [if_neg hb] at hok
        right
        simp only [mdParse] at hok
        refine ⟨by simpa using hb, ?_⟩
        have := Except.ok.inj hok
        exact this.symm

/-! ## Claim C1: chunk size bound -/

/-- C1: every chunk returned by splitText is within the target `chunkSize`,
or corresponds to an atomic piece kept within the overflow tolerance
`chunkSize * maxOverflowRatio`; forced raw slices are within `chunkSize` by
construction, so every chunk satisfies the stated disjunction. -/
theorem c1_chunk_size_bound (text : Str) (cfg : ChunkConfig) (cs : List Str)
    (hok : chunkdownCore text cfg = .ok cs) :
    ∀ c ∈ cs, (c.length : Int) ≤ cfg.chunkSize ∨
      (c.length : Rat) ≤ (cfg.chunkSize : Rat) * cfg.maxOverflow := by
  obtain ⟨⟨hpos, hr⟩, hsplit⟩ := chunkdownCore_ok_dissect text cfg cs hok
  rcases hsplit with ⟨_, hcs⟩ | ⟨_, hcs⟩
  · subst hcs
    intro c hc
    exact absurd hc (List.not_mem_nil c)
  · subst hcs
    intro c hc
    have hs1 : 1 ≤ cfg.chunkSize.toNat := by omega
    have hbound := splitSec_ok cfg.chunkSize.toNat cfg.maxOverflow hs1 none
      (sectionizeGo (parseBlocks text)) c hc
    have hcast : ((cfg.chunkSize.toNat : Int)) = cfg.chunkSize :=
      Int.toNat_of_nonneg (by omega)
    rcases hbound with h | h
    · left
      rw [← hcast]
      exact_mod_cast h
    · right
      have hq : ((cfg.chunkSize : Rat)) = ((cfg.chunkSize.toNat : Nat) : Rat) := by
        rw [← hcast]
        push_cast
        rfl
      rw [hq]
      exact h

/-- Witness for C1 at a concrete input. -/
theorem c1_witness :
    (((['a'] : Str).length : Int) ≤ (5 : Int)) ∨
      (((['a'] : Str).length : Rat) ≤ ((5 : Int) : Rat) * (2 : Rat)) :=
  c1_chunk_size_bound ['a'] ⟨5, 2⟩ [['a']] (by
    simp [chunkdownCore, splitTextWith, mdParse, parseBlocks, splitLines, buildStep,
      classifyLine, closePara, isBlank, isJsSpace, sectionizeGo, splitSec, packList,
      packChild, addText, flushSt, headText, streeText, listText, splitLeafText,
      chunkWindows, blocksText, chunkCount]) ['a'] (List.mem_singleton.mpr rfl)

/-! ## Claim C2: coverage -/

/-- Counterexample to C2 as universally stated: a whitespace-only (non-empty)
input produces no chunks (per the spec's own empty-input rule), so the
concatenated chunk coverage is empty and does not reproduce the original
document. -/
theorem c2_counterexample :
    chunkdownCore [' '] ⟨200, 2⟩ = .ok [] ∧ ([] : List Str).flatten ≠ [' '] := by
  constructor
  · simp [chunkdownCore, splitTextWith, isBlank, isJsSpace]
  · simp

/-- C2 (amended): for every input that is not whitespace-only, concatenating
the chunks of a successful splitText call reproduces the original document
exactly, with no gaps and no overlaps; whitespace-only input instead
produces no chunks. -/
theorem c2_coverage (text : Str) (cfg : ChunkConfig) (cs : List Str)
    (hok : chunkdownCore text cfg = .ok cs) (hnb : isBlank text = false) :
    cs.flatten = text := by
  obtain ⟨_, hsplit⟩ := chunkdownCore_ok_dissect text cfg cs hok
  rcases hsplit with ⟨hb, _⟩ | ⟨_, hcs⟩
  · rw [hb] at hnb
    exact absurd hnb (by simp)
  · subst hcs
    rw [splitSec_flatten, listText_sectionizeGo, blocksText_parseBlocks]
    rfl

/-- Witness for C2 at a concrete input. -/
theorem c2_witness : ([['a']] : List Str).flatten = ['a'] :=
  c2_coverage ['a'] ⟨5, 2⟩ [['a']] (by
    simp [chunkdownCore, splitTextWith, mdParse, parseBlocks, splitLines, buildStep,
      classifyLine, closePara, isBlank, isJsSpace, sectionizeGo, splitSec, packList,
      packChild, addText, flushSt, headText, streeText, listText, splitLeafText,
      chunkWindows, blocksText, chunkCount])
    (by simp [isBlank, isJsSpace])

/-! ## Claim C3: blank input -/

/-- C3: empty or whitespace-only input produces an empty chunk sequence and
no error, both in the `useTextSplitter` hook (which returns early, clearing
chunks and error) and in the chunkdown core under a valid configuration. -/
theorem c3_blank_input (text : Str) (hb : isBlank text = true) :
    (∀ (registry : String → Option SplitFn) (splitterId alg : String)
        (config : TextSplitterConfig),
        runUseTextSplitter registry splitterId alg text config = ([], none)) ∧
    (∀ cfg : ChunkConfig, ¬(cfg.chunkSize ≤ 0) → ¬(cfg.maxOverflow < 1) →
        chunkdownCore text cfg = .ok []) := by
  constructor
  · intro registry splitterId alg config
    unfold runUseTextSplitter
    rw [if_pos hb]
  · intro cfg h1 h2
    unfold chunkdownCore splitTextWith
    rw [if_neg h1, if_neg h2, if_pos hb]

/-- Witness for C3 at a concrete input. -/
theorem c3_witness :
    runUseTextSplitter (fun _ => none) "chunkdown" "markdown" [' ']
      ⟨none, none, none, none⟩ = ([], none) :=
  (c3_blank_input [' '] (by simp [isBlank, isJsSpace])).1
    (fun _ => none) "chunkdown" "markdown" ⟨none, none, none, none⟩

/-! ## Claim C4: determinism -/

/-- C4: splitText is deterministic: two calls with identical text and
identical configuration return identical chunk sequences (the embedded
computation is a pure function of its inputs). -/
theorem c4_deterministic (t1 t2 : Str) (c1 c2 : TextSplitterConfig)
    (ht : t1 = t2) (hc : c1 = c2) :
    ChunkdownSplitter.splitText t1 c1 = ChunkdownSplitter.splitText t2 c2 := by
  subst ht
  subst hc
  rfl

/-- Witness for C4 at a concrete input. -/
theorem c4_witness :
    ChunkdownSplitter.splitText ['a'] ⟨some 5, none, none, some 2⟩
      = ChunkdownSplitter.splitText ['a'] ⟨some 5, none, none, some 2⟩ :=
  c4_deterministic ['a'] ['a'] ⟨some 5, none, none, some 2⟩
    ⟨some 5, none, none, some 2⟩ rfl rfl

/-! ## Claim C5: non-positive chunkSize rejected before parsing -/

/-- C5: a configuration with `chunkSize ≤ 0` is rejected as a configuration
error for every input text and every parser collaborator (so the error is
surfaced before any parsing occurs), and the adapter, which forwards an
explicitly supplied non-positive `chunkSize` unchanged, is rejected the same
way. -/
theorem c5_config_error :
    (∀ (parse : Str → Except String (List Block)) (text : Str) (cfg : ChunkConfig),
        cfg.chunkSize ≤ 0 →
        splitTextWith parse text cfg = .error .configError) ∧
    (∀ (text : Str) (config : TextSplitterConfig) (k : Int),
        config.chunkSize = some k → k ≤ 0 →
        ChunkdownSplitter.splitText text config = .error .configError) := by
  constructor
  · intro parse text cfg hk
    unfold splitTextWith
    rw [if_pos hk]
  · intro text config k hks hk
    unfold ChunkdownSplitter.splitText chunkdownCore splitTextWith
    rw [hks]
    rw [if_pos (by simpa using hk)]

/-- Witness for C5 at a concrete input, with a parser that would fail if it
were ever consulted. -/
theorem c5_witness :
    splitTextWith (fun _ => .error "parser reached") ['a'] ⟨0, 2⟩
      = .error .configError :=
  c5_config_error.1 (fun _ => .error "parser reached") ['a'] ⟨0, 2⟩ (by decide)

/-! ## Claim C6: parse failures are distinct from empty results -/

/-- C6: when the underlying markdown parser fails, the splitting operation
propagates a distinct parse error (never a silent empty chunk list); an
empty successful result only ever arises from blank input, so the two
outcomes are always distinguishable; and the `useTextSplitter` hook
propagates a thrown error to its error state rather than swallowing it. -/
theorem c6_parse_failure_distinct :
    (∀ (parse : Str → Except String (List Block)) (text : Str)
        (cfg : ChunkConfig) (msg : String),
        ¬(cfg.chunkSize ≤ 0) → ¬(cfg.maxOverflow < 1) → isBlank text = false →
        parse text = .error msg →
        splitTextWith parse text cfg = .error (.parseFailure msg)) ∧
    (∀ (text : Str) (cfg : ChunkConfig),
        chunkdownCore text cfg = .ok [] → isBlank text = true) ∧
    (∀ (registry : String → Option SplitFn) (splitterId alg : String)
        (text : Str) (config : TextSplitterConfig) (f : SplitFn) (e : SplitError),
        isBlank text = false → registry splitterId = some f →
        f text { config with algorithm := some alg } = .error e →
        runUseTextSplitter registry splitterId alg text config = ([], some e)) := by
  refine ⟨?_, ?_, ?_⟩
  · intro parse text cfg msg h1 h2 hnb hp
    unfold splitTextWith
    rw [if_neg h1, if_neg h2, if_neg (by simp [hnb]), hp]
  · intro text cfg hok
    by_cases hb : isBlank text
    · exact hb
    · have hcov := c2_coverage text cfg [] hok (by simpa using hb)
      simp only [List.flatten_nil] at hcov
      subst hcov
      rfl
  · intro registry splitterId alg text config f e hnb hreg hf
    unfold runUseTextSplitter
    rw [if_neg (by simp [hnb])]
    simp only [hreg, hf]

/-- Witness for C6 with a concretely failing parser. -/
theorem c6_witness :
    splitTextWith (fun _ => .error "bad markdown") ['a'] ⟨5, 2⟩
      = .error (.parseFailure "bad markdown") :=
  c6_parse_failure_distinct.1 (fun _ => .error "bad markdown") ['a'] ⟨5, 2⟩
    "bad markdown" (by decide) (by decide) (by simp [isBlank, isJsSpace]) rfl

/-! ## Claim C7: chunk count is monotone in decreasing chunkSize -/

/-- C7: for the same text and the same overflow ratio, decreasing the target
chunk size never decreases the number of chunks produced. -/
theorem c7_chunk_count_monotone (text : Str) (s1 s2 : Int) (r : Rat)
    (hpos : 0 < s2) (hlt : s2 < s1) (cs1 cs2 : List Str)
    (h1 : chunkdownCore text ⟨s1, r⟩ = .ok cs1)
    (h2 : chunkdownCore text ⟨s2, r⟩ = .ok cs2) :
    cs1.length ≤ cs2.length := by
  obtain ⟨⟨hp1, hr1⟩, hsplit1⟩ := chunkdownCore_ok_dissect text ⟨s1, r⟩ cs1 h1
  obtain ⟨⟨hp2, hr2⟩, hsplit2⟩ := chunkdownCore_ok_dissect text ⟨s2, r⟩ cs2 h2
  rcases hsplit1 with ⟨hb1, hcs1⟩ | ⟨hb1, hcs1⟩ <;>
    rcases hsplit2 with ⟨hb2, hcs2⟩ | ⟨hb2, hcs2⟩
  · subst hcs1
    subst hcs2
    exact Nat.le_refl _
  · rw [hb1] at hb2
    exact absurd hb2 (by simp)
  · rw [hb2] at hb1
    exact absurd hb1 (by simp)
  · subst hcs1
    subst hcs2
    exact splitSec_count_anti s1.toNat s2.toNat r (by omega) (by omega) hr1 none
      (sectionizeGo (parseBlocks text))

/-- Witness for C7: the same three-character text yields one chunk at target
size 3 and three chunks at target size 1. -/
theorem c7_witness :
    ([['a', 'b', 'c']] : List Str).length ≤ ([['a'], ['b'], ['c']] : List Str).length :=
  c7_chunk_count_monotone ['a', 'b', 'c'] 3 1 2 (by decide) (by decide)
    [['a', 'b', 'c']] [['a'], ['b'], ['c']]
    (by
      simp [chunkdownCore, splitTextWith, mdParse, parseBlocks, splitLines, buildStep,
        classifyLine, closePara, isBlank, isJsSpace, sectionizeGo, splitSec, packList,
        packChild, addText, flushSt, headText, streeText, listText, splitLeafText,
        chunkWindows, blocksText, chunkCount])
    (by
      simp [chunkdownCore, splitTextWith, mdParse, parseBlocks, splitLines, buildStep,
        classifyLine, closePara, isBlank, isJsSpace, sectionizeGo, splitSec, packList,
        packChild, addText, flushSt, headText, streeText, listText, splitLeafText,
        chunkWindows, blocksText, chunkCount]
      all_goals decide)

/-! ## Claim C8: adapter defaults -/

/-- C8: when `chunkSize` or `maxOverflowRatio` is absent from the config, the
chunkdown adapter does not reject the call: it substitutes the defaults
`chunkSize = 200` and `maxOverflowRatio = 1.5` and proceeds, so its result
equals the core called with those values supplied explicitly (and the call
succeeds, never raising a configuration error). -/
theorem c8_adapter_defaults (text : Str) (config : TextSplitterConfig)
    (hs : config.chunkSize = none) (hr : config.maxOverflow = none) :
    ChunkdownSplitter.splitText text config
      = chunkdownCore text ⟨200, (3 : Rat) / 2⟩ ∧
    ∃ cs, ChunkdownSplitter.splitText text config = .ok cs := by
  have heq : ChunkdownSplitter.splitText text config
      = chunkdownCore text ⟨200, (3 : Rat) / 2⟩ := by
    unfold ChunkdownSplitter.splitText
    rw [hs, hr]
    rfl
  refine ⟨heq, ?_⟩
  rw [heq]
  unfold chunkdownCore splitTextWith
  rw [if_neg (by norm_num), if_neg (by norm_num)]
  by_cases hb : isBlank text
  · rw [if_pos hb]
    exact ⟨[], rfl⟩
  · rw [if_neg hb]
    simp only [mdParse]
    exact ⟨_, rfl⟩

/-- Witness for C8 at a concrete input. -/
theorem c8_witness :
    ChunkdownSplitter.splitText ['a'] ⟨none, none, none, none⟩
      = chunkdownCore ['a'] ⟨200, (3 : Rat) / 2⟩ ∧
    ∃ cs, ChunkdownSplitter.splitText ['a'] ⟨none, none, none, none⟩ = .ok cs :=
  c8_adapter_defaults ['a'] ⟨none, none, none, none⟩ rfl rfl

/-! ## Claim C9: the hook never reports an error alongside chunks -/

/-- C9: after any completed run of the `useTextSplitter` effect, a non-null
error state implies the chunks state is the empty array: every failure path
clears the chunks. -/
theorem c9_error_implies_no_chunks (registry : String → Option SplitFn)
    (splitterId alg : String) (text : Str) (config : TextSplitterConfig)
    (herr : (runUseTextSplitter registry splitterId alg text config).2 ≠ none) :
    (runUseTextSplitter registry splitterId alg text config).1 = [] := by
  unfold runUseTextSplitter at herr ⊢
  by_cases hb : isBlank text
  · rw [if_pos hb] at herr
    exact absurd rfl herr
  · rw [if_neg hb] at herr ⊢
    cases hreg : registry splitterId with
    | none =>
      simp only [hreg]
    | some f =>
      simp only [hreg] at herr ⊢
      cases hres : f text { config with algorithm := some alg } with
      | ok cs =>
        simp only [hres] at herr
        exact absurd rfl herr
      | error e =>
        simp only [hres]

/-- Witness for C9: a missing splitter produces an error state and an empty
chunk list. -/
theorem c9_witness :
    (runUseTextSplitter (fun _ => none) "chunkdown" "markdown" ['a']
      ⟨none, none, none, none⟩).1 = [] :=
  c9_error_implies_no_chunks (fun _ => none) "chunkdown" "markdown" ['a']
    ⟨none, none, none, none⟩
    (by simp [runUseTextSplitter, isBlank, isJsSpace])

/-! ## Claim C10: unknown algorithm handling -/

/-- C10: for every config whose `algorithm` is not one of the splitter's
declared algorithms, the LangChain and LlamaIndex adapters throw an
`Unknown algorithm` error and return no chunks; for every declared algorithm
they return chunks and do not throw. -/
theorem c10_unknown_algorithm :
    (∀ (mdImpl charImpl recImpl : Int → Int → Str → List Str) (text : Str)
        (config : TextSplitterConfig) (alg : String),
        config.algorithm = some alg →
        (alg ∉ LangchainSplitter.algorithms →
          LangchainSplitter.splitText mdImpl charImpl recImpl text config
            = .error (.unknownAlgorithm alg)) ∧
        (alg ∈ LangchainSplitter.algorithms →
          ∃ cs, LangchainSplitter.splitText mdImpl charImpl recImpl text config
            = .ok cs)) ∧
    (∀ (sentImpl : Option Int → Int → Str → List Str) (mdImpl : Str → List Str)
        (text : Str) (config : TextSplitterConfig) (alg : String),
        config.algorithm = some alg →
        (alg ∉ LlamaIndexSplitter.algorithms →
          LlamaIndexSplitter.splitText sentImpl mdImpl text config
            = .error (.unknownAlgorithm alg)) ∧
        (alg ∈ LlamaIndexSplitter.algorithms →
          ∃ cs, LlamaIndexSplitter.splitText sentImpl mdImpl text config
            = .ok cs)) := by
  constructor
  · intro mdImpl charImpl recImpl text config alg halg
    have hgd : config.algorithm.getD "markdown" = alg := by rw [halg]; rfl
    constructor
    · intro hnot
      have h1 : ¬(alg = "markdown") := fun h => hnot (by
        rw [h]; simp [LangchainSplitter.algorithms])
      have h2 : ¬(alg = "character") := fun h => hnot (by
        rw [h]; simp [LangchainSplitter.algorithms])
      have h3 : ¬(alg = "sentence") := fun h => hnot (by
        rw [h]; simp [LangchainSplitter.algorithms])
      unfold LangchainSplitter.splitText
      rw [hgd, if_neg h1, if_neg h2, if_neg h3]
    · intro hmem
      have hmem' : alg = "markdown" ∨ alg = "character" ∨ alg = "sentence" := by
        simpa [LangchainSplitter.algorithms] using hmem
      unfold LangchainSplitter.splitText
      rw [hgd]
      rcases hmem' with h | h | h
      · subst h
        rw [if_pos rfl]
        exact ⟨_, rfl⟩
      · subst h
        rw [if_neg (by decide), if_pos rfl]
        exact ⟨_, rfl⟩
      · subst h
        rw [if_neg (by decide), if_neg (by decide), if_pos rfl]
        exact ⟨_, rfl⟩
  · intro sentImpl mdImpl text config alg halg
    have hgd : config.algorithm.getD "markdown" = alg := by rw [halg]; rfl
    constructor
    · intro hnot
      have h1 : ¬(alg = "sentence") := fun h => hnot (by
        rw [h]; simp [LlamaIndexSplitter.algorithms])
      have h2 : ¬(alg = "markdown") := fun h => hnot (by
        rw [h]; simp [LlamaIndexSplitter.algorithms])
      unfold LlamaIndexSplitter.splitText
      rw [hgd, if_neg h1, if_neg h2]
    · intro hmem
      have hmem' : alg = "sentence" ∨ alg = "markdown" := by
        simpa [LlamaIndexSplitter.algorithms] using hmem
      unfold LlamaIndexSplitter.splitText
      rw [hgd]
      rcases hmem' with h | h
      · subst h
        rw [if_pos rfl]
        exact ⟨_, rfl⟩
      · subst h
        rw [if_neg (by decide), if_pos rfl]
        exact ⟨_, rfl⟩

/-- Witness for C10: a concrete unknown algorithm is rejected. -/
theorem c10_witness :
    LangchainSplitter.splitText (fun _ _ _ => []) (fun _ _ _ => [])
      (fun _ _ _ => []) ['a'] ⟨none, none, some "token", none⟩
      = .error (.unknownAlgorithm "token") :=
  ((c10_unknown_algorithm.1 (fun _ _ _ => []) (fun _ _ _ => [])
    (fun _ _ _ => []) ['a'] ⟨none, none, some "token", none⟩ "token" rfl).1
    (by decide))
